import Mathlib

/-!
Verification of the Adria-DX12 render-graph subsystem and its collaborators.

The render-graph core (RenderGraph / RenderGraphBuilder / RGResourcePool /
RGBlackboard) is consumed by the rendering passes found in the sources; the
core itself is modelled from the specification where marked.  Code that is
present in the sources (ToneMapPass, CustomIncludeHandler) is embedded
directly.
-/

/-- Modelled from the spec: a declared render-graph pass (RenderGraph.h is not
in the sources; callers such as SSAOPass::AddPass and
AutomaticExposurePass::AddPasses show the shape).  A pass has a name, the set
of logical resources it reads, the set it writes, and the force-keep flag
(RGPassFlags::ForceNoCull). Resources are identified by interned ids. -/
structure RGPassDecl where
  name : String
  reads : List Nat
  writes : List Nat
  forceNoCull : Bool
deriving DecidableEq

/-- Default pass used for total list indexing. -/
def defaultPass : RGPassDecl := { name := "", reads := [], writes := [], forceNoCull := false }

/-- Modelled from the spec: resource r is read by a pass declared after pass i. -/
def readByLaterPass (passes : List RGPassDecl) (i r : Nat) : Bool :=
  (List.range passes.length).any fun j =>
    decide (i < j) && decide (r ∈ (passes.getD j defaultPass).reads)

/-- Modelled from the spec: every output of pass i is never read by a later
pass and never exported. -/
def outputsDead (passes : List RGPassDecl) (exported : List Nat) (i : Nat) : Bool :=
  (passes.getD i defaultPass).writes.all fun r =>
    !(readByLaterPass passes i r) && !(decide (r ∈ exported))

/-- Modelled from the spec: a pass whose outputs are never read by a later
pass or exported, and which lacks the force-keep flag, is culled. -/
def culled (passes : List RGPassDecl) (exported : List Nat) (i : Nat) : Bool :=
  outputsDead passes exported i && !(passes.getD i defaultPass).forceNoCull

/-- Modelled from the spec: the compiled execution order is declaration order
with culled passes removed. -/
def compiledOrder (passes : List RGPassDecl) (exported : List Nat) : List Nat :=
  (List.range passes.length).filter fun i => !(culled passes exported i)

/-- Modelled from the spec: a culled pass and its declaration/execution
callbacks are skipped entirely, so callbacks are invoked exactly for the
passes in the compiled order. -/
def callbackInvocations (passes : List RGPassDecl) (exported : List Nat) : List Nat :=
  compiledOrder passes exported

/-- The same pass list with the force-keep flag set on pass i. -/
def setForceNoCull (passes : List RGPassDecl) (i : Nat) : List RGPassDecl :=
  passes.set i { passes.getD i defaultPass with forceNoCull := true }

/-- Modelled from the spec: an entry of the frame resource registry
(RenderGraph.h is not in the sources): a logical resource has an interned
name, a description, and an imported flag. -/
structure RGResourceEntry where
  resName : Nat
  desc : Nat
  imported : Bool
deriving DecidableEq

/-- Modelled from the spec: DeclareTexture/DeclareBuffer register a logical
resource and fail (construction-time debug assert, modelled as Except.error)
if the name is already declared this frame, unless the declaration is an
import. -/
def declareResource (registry : List RGResourceEntry) (n d : Nat) (imported : Bool) :
    Except String (List RGResourceEntry) :=
  if !imported && registry.any (fun e => e.resName == n) then
    Except.error "resource name already declared this frame"
  else
    Except.ok (registry ++ [{ resName := n, desc := d, imported := imported }])

/-- Lookup of a declared logical resource by name; the registry resolves a
name to its first matching registration. -/
def lookupResource (registry : List RGResourceEntry) (n : Nat) : Option RGResourceEntry :=
  registry.find? (fun e => e.resName == n)

/-- Modelled from the spec: the blackboard is a type-keyed, frame-scoped map
from one type tag to one value instance; tags and values are modelled as
interned ids. -/
def blackboardAdd (bb : List (Nat × Nat)) (t v : Nat) : List (Nat × Nat) :=
  (t, v) :: bb

/-- Modelled from the spec: GetChecked fails fatally (modelled as
Except.error) when no value of the requested type tag was stored this frame,
and returns the stored value otherwise. -/
def getChecked (bb : List (Nat × Nat)) (t : Nat) : Except String Nat :=
  match bb.find? (fun e => e.1 == t) with
  | some e => Except.ok e.2
  | none => Except.error "blackboard: type was never stored this frame"

/-- Modelled from the spec: the declaration callback of one pass, seen by the
declare phase: the resource names it declares (creates) and the names it
reads. -/
structure PassDeclare where
  passName : String
  declaresRes : List Nat
  readsRes : List Nat
deriving DecidableEq

/-- Modelled from the spec: the declare phase walks the passes in declaration
order, accumulating declared names and checking every read against them; a
read of a name not declared is a construction-time fatal error (modelled as
Except.error), detected before any GPU command is recorded. -/
def declarePhase (declared : List Nat) : List PassDeclare → Except String (List Nat)
  | [] => Except.ok declared
  | p :: rest =>
    if p.readsRes.all (fun n => decide (n ∈ declared ++ p.declaresRes)) then
      declarePhase (declared ++ p.declaresRes) rest
    else
      Except.error ("read of undeclared resource in pass " ++ p.passName)

/-- Modelled from the spec: GPU commands are recorded only by execution
callbacks, which run only after the declare phase succeeded, one command
batch per pass; on a construction error no GPU command is recorded. -/
def recordedGpuCommands (frame : List PassDeclare) : List String :=
  match declarePhase [] frame with
  | Except.ok _ => frame.map (fun p => p.passName)
  | Except.error _ => []

/-- GPU resource states relevant to transition computation (subset of
GfxResourceState). -/
inductive GfxState
  | common
  | shaderRead
  | unorderedAccess
  | renderTarget
  | depthWrite
  | copySrc
  | copyDst
deriving DecidableEq

/-- One declared access of a retained pass: the resource id and the GPU
state the access requires. -/
structure ResourceAccess where
  res : Nat
  reqState : GfxState
deriving DecidableEq

/-- A retained (non-culled) pass as the barrier compiler sees it. -/
structure RetainedPass where
  passName : String
  accesses : List ResourceAccess
deriving DecidableEq

/-- A recorded state-transition barrier for one resource. -/
structure Barrier where
  res : Nat
  stateBefore : GfxState
  stateAfter : GfxState
deriving DecidableEq

/-- Modelled from the spec: the tracked state of every resource after a
pass: resources the pass accesses now carry the state that access required,
the rest are unchanged. -/
def trackedAfter (tracked : Nat → GfxState) (accesses : List ResourceAccess) :
    Nat → GfxState :=
  fun r =>
    match accesses.find? (fun a => a.res == r) with
    | some a => a.reqState
    | none => tracked r

/-- Modelled from the spec: the barriers issued immediately before one pass:
one transition per accessed resource whose tracked state differs from the
required state, none when the state is unchanged. -/
def passBarriers (tracked : Nat → GfxState) (accesses : List ResourceAccess) :
    List Barrier :=
  accesses.filterMap fun a =>
    if tracked a.res = a.reqState then none
    else some { res := a.res, stateBefore := tracked a.res, stateAfter := a.reqState }

/-- Modelled from the spec: walking the retained passes in compiled order,
one batched barrier-flush per pass boundary. -/
def barrierBatches (tracked : Nat → GfxState) : List RetainedPass → List (List Barrier)
  | [] => []
  | p :: rest =>
    passBarriers tracked p.accesses :: barrierBatches (trackedAfter tracked p.accesses) rest

/-- The tracked state map after a sequence of retained passes. -/
def trackedAfterPasses (tracked : Nat → GfxState) : List RetainedPass → (Nat → GfxState)
  | [] => tracked
  | p :: rest => trackedAfterPasses (trackedAfter tracked p.accesses) rest

/-- The barriers of one batch that concern resource r. -/
def barriersFor (r : Nat) (batch : List Barrier) : List Barrier :=
  batch.filter (fun b => b.res == r)

/-- Each pass requires at most one state per resource. -/
def nodupAccessKeys (accesses : List ResourceAccess) : Prop :=
  (accesses.map (fun a => a.res)).Nodup

/-- Modelled from the spec: a logical resource as the allocator sees it:
pool-backed (acquired during compilation, released at frame end) unless
imported, in which case it is bound to an already-existing external
physical resource and bypasses the pool. -/
structure RGLogicalResource where
  resName : Nat
  desc : Nat
  imported : Bool
  externalBacking : Nat
deriving DecidableEq

/-- An operation observed by the physical-resource pool, tagged with the
logical resource it was issued for. -/
inductive PoolOp
  | acquire (resName : Nat) (physId : Nat)
  | release (resName : Nat) (physId : Nat)
deriving DecidableEq

/-- The logical-resource name a pool operation was issued for. -/
def PoolOp.forName : PoolOp → Nat
  | PoolOp.acquire n _ => n
  | PoolOp.release n _ => n

/-- Modelled from the spec: the pool of physical resources: a free list of
(physical id, description) pairs plus a counter for fresh allocations. -/
structure PoolState where
  freeList : List (Nat × Nat)
  nextId : Nat
deriving DecidableEq

/-- Modelled from the spec: Acquire returns a compatible idle resource from
the free list or allocates new backing storage. -/
def poolAcquire (pool : PoolState) (d : Nat) : Nat × PoolState :=
  match pool.freeList.find? (fun e => e.2 == d) with
  | some e => (e.1, { freeList := pool.freeList.erase e, nextId := pool.nextId })
  | none => (pool.nextId, { freeList := pool.freeList, nextId := pool.nextId + 1 })

/-- Modelled from the spec: physical-resource assignment (compile step 5):
imported resources are bound to their external backing and bypass pool
allocation; the rest acquire pool backing. Returns the bindings, the pool
afterwards, and the log of pool operations. -/
def assignResources (pool : PoolState) :
    List RGLogicalResource → List (RGLogicalResource × Nat) × PoolState × List PoolOp
  | [] => ([], pool, [])
  | r :: rest =>
    if r.imported then
      let t := assignResources pool rest
      ((r, r.externalBacking) :: t.1, t.2.1, t.2.2)
    else
      let a := poolAcquire pool r.desc
      let t := assignResources a.2 rest
      ((r, a.1) :: t.1, t.2.1, PoolOp.acquire r.resName a.1 :: t.2.2)

/-- Modelled from the spec: at frame end pooled backing returns to the free
list; imported resources are not released by the frame graph. -/
def frameEndRelease (pool : PoolState) :
    List (RGLogicalResource × Nat) → PoolState × List PoolOp
  | [] => (pool, [])
  | (r, phys) :: rest =>
    if r.imported then frameEndRelease pool rest
    else
      let t := frameEndRelease
        { freeList := pool.freeList ++ [(phys, r.desc)], nextId := pool.nextId } rest
      (t.1, PoolOp.release r.resName phys :: t.2)

/-- Modelled from the spec: the pool effect of compiling and executing one
frame: assignment during compilation followed by the frame-end release. -/
def runFramePool (pool : PoolState) (resources : List RGLogicalResource) :
    PoolState × List PoolOp :=
  ((frameEndRelease (assignResources pool resources).2.1 (assignResources pool resources).1).1,
   (assignResources pool resources).2.2 ++
     (frameEndRelease (assignResources pool resources).2.1 (assignResources pool resources).1).2)

/-- Modelled from the spec: the required GPU state of each declared access:
writes require unordered-access state, reads shader-read state. -/
def passAccesses (p : RGPassDecl) : List ResourceAccess :=
  p.writes.map (fun r => { res := r, reqState := GfxState.unorderedAccess }) ++
  p.reads.map (fun r => { res := r, reqState := GfxState.shaderRead })

/-- The retained passes, in compiled order, as the barrier compiler sees
them. -/
def retainedPasses (passes : List RGPassDecl) (exported : List Nat) : List RetainedPass :=
  (compiledOrder passes exported).map fun i =>
    { passName := (passes.getD i defaultPass).name,
      accesses := passAccesses (passes.getD i defaultPass) }

/-- All resources start a frame in the common state. -/
def initTracked : Nat → GfxState := fun _ => GfxState.common

/-- The compiled execution plan of a frame: the pass order and the
per-boundary barrier batches. -/
structure CompiledPlan where
  order : List Nat
  batches : List (List Barrier)
deriving DecidableEq

/-- Modelled from the spec: compiling one frame-graph instance: the plan
(order and barrier placement) is derived from the declarations; the pool of
the instance supplies physical backing. -/
def compileFrame (passes : List RGPassDecl) (exported : List Nat)
    (resources : List RGLogicalResource) (pool : PoolState) :
    CompiledPlan × PoolState :=
  ({ order := compiledOrder passes exported,
     batches := barrierBatches initTracked (retainedPasses passes exported) },
   (runFramePool pool resources).1)

/-- From ToneMapPass.cpp: a read-only texture access handle
(RGTextureReadOnlyId); Invalidate() clears validity and IsValid() tests it.
The handle carries the resource name it resolves to. -/
structure RGTextureReadOnlyId where
  valid : Bool
  texName : String
deriving DecidableEq

/-- An invalidated handle, as produced by data.exposure.Invalidate(). -/
def invalidTextureId : RGTextureReadOnlyId := { valid := false, texName := "" }

/-- Modelled from the spec: the builder knows which texture names are
declared this frame; IsTextureDeclared tests membership. -/
structure BuilderState where
  declaredTextures : List String
deriving DecidableEq

/-- IsTextureDeclared: whether the name was declared this frame. -/
def isTextureDeclared (b : BuilderState) (n : String) : Bool :=
  decide (n ∈ b.declaredTextures)

/-- Modelled from the spec: ReadTexture returns a valid access handle for
the named resource. -/
def readTexture (b : BuilderState) (n : String) : RGTextureReadOnlyId :=
  { valid := true, texName := n }

/-- From ToneMapPass.cpp: the pass data captured between the declaration
callback and the execution callback. -/
structure ToneMapPassData where
  hdrSrv : RGTextureReadOnlyId
  exposure : RGTextureReadOnlyId
deriving DecidableEq

/-- From ToneMapPass.cpp, declaration callback of AddPass: read the hdr
source; read Exposure when it is declared, otherwise invalidate the
exposure handle. -/
def toneMapDeclare (b : BuilderState) (hdrSrc : String) : ToneMapPassData :=
  { hdrSrv := readTexture b hdrSrc,
    exposure :=
      if isTextureDeclared b ("Exposure") then readTexture b ("Exposure")
      else invalidTextureId }

/-- The SRV source copied into the exposure descriptor slot by the
execution callback. -/
inductive ExposureSrvSource
  | graphTexture (texName : String)
  | globalWhiteTexture
deriving DecidableEq

/-- From ToneMapPass.cpp, execution callback: when the exposure handle is
valid its graph texture SRV is copied into the exposure slot, otherwise the
global 1x1 white texture SRV (global_data.white_srv_texture2d); an invalid
handle is never resolved through the graph context. -/
def toneMapExposureBinding (data : ToneMapPassData) : ExposureSrvSource :=
  if data.exposure.valid then ExposureSrvSource.graphTexture data.exposure.texName
  else ExposureSrvSource.globalWhiteTexture

/-- HRESULT codes returned by CustomIncludeHandler::LoadSource. -/
inductive HResultCode
  | sOk
  | eFail
deriving DecidableEq

/-- The file system visible during one shader compilation: whether a
normalized path exists, and the loadable contents of a path (none models a
failing IDxcUtils::LoadFile). -/
structure IncludeFileSystem where
  fileExists : String → Bool
  loadFile : String → Option String

/-- From GfxShaderCompiler.cpp: the blank placeholder blob returned for an
already-included file. -/
def blankBlob : String := " "

/-- From GfxShaderCompiler.cpp, CustomIncludeHandler::LoadSource: normalize
the requested path; E_FAIL with a null blob when the file does not exist; a
blank placeholder blob when the path is already in include_files; otherwise
load the file and append it to include_files on success, or E_FAIL with a
null blob when loading fails. Returns the HRESULT, the output blob and the
updated include_files. -/
def loadSource (fs : IncludeFileSystem) (normalize : String → String)
    (includeFiles : List String) (filename : String) :
    HResultCode × Option String × List String :=
  if fs.fileExists (normalize filename) = false then
    (HResultCode.eFail, none, includeFiles)
  else if normalize filename ∈ includeFiles then
    (HResultCode.sOk, some blankBlob, includeFiles)
  else
    match fs.loadFile (normalize filename) with
    | some contents =>
      (HResultCode.sOk, some contents, includeFiles ++ [normalize filename])
    | none => (HResultCode.eFail, none, includeFiles)

/-- Invariant within one compilation: every path recorded in include_files
exists and is loadable (it was loaded successfully when recorded). -/
def goodIncludeState (fs : IncludeFileSystem) (includeFiles : List String) : Prop :=
  ∀ p ∈ includeFiles, fs.fileExists p = true ∧ ∃ c, fs.loadFile p = some c

theorem indexOf_lt_of_pairwise_lt {l : List Nat} (hp : l.Pairwise (· < ·))
    {a b : Nat} (ha : a ∈ l) (hb : b ∈ l) (hab : a < b) :
    l.indexOf a < l.indexOf b := by
  induction l with
  | nil => cases ha
  | cons x xs ih =>
    have hpx := List.pairwise_cons.mp hp
    rcases List.mem_cons.mp ha with ha1 | ha'
    · subst ha1
      rw [List.indexOf_cons_self, List.indexOf_cons_ne _ (Nat.ne_of_lt hab)]
      exact Nat.succ_pos _
    · have hxa : x < a := hpx.1 a ha'
      have hxb : x < b := Nat.lt_trans hxa hab
      have hb' : b ∈ xs := by
        rcases List.mem_cons.mp hb with hb1 | hb2
        · omega
        · exact hb2
      rw [List.indexOf_cons_ne _ (Nat.ne_of_lt hxa), List.indexOf_cons_ne _ (Nat.ne_of_lt hxb)]
      exact Nat.succ_lt_succ (ih hpx.2 ha' hb')

theorem compiledOrder_pairwise (passes : List RGPassDecl) (exported : List Nat) :
    (compiledOrder passes exported).Pairwise (· < ·) := by
  exact (List.pairwise_lt_range passes.length).filter _

theorem mem_compiledOrder {passes : List RGPassDecl} {exported : List Nat} {i : Nat} :
    i ∈ compiledOrder passes exported ↔
      i < passes.length ∧ culled passes exported i = false := by
  unfold compiledOrder
  rw [List.mem_filter, List.mem_range]
  simp

theorem writer_not_culled {passes : List RGPassDecl} {exported : List Nat}
    {a b r : Nat} (hab : a < b) (hb : b < passes.length)
    (hw : r ∈ (passes.getD a defaultPass).writes)
    (hr : r ∈ (passes.getD b defaultPass).reads) :
    culled passes exported a = false := by
  have hlater : readByLaterPass passes a r = true := by
    unfold readByLaterPass
    rw [List.any_eq_true]
    refine ⟨b, List.mem_range.mpr hb, ?_⟩
    rw [Bool.and_eq_true, decide_eq_true_iff, decide_eq_true_iff]
    exact ⟨hab, hr⟩
  cases hcull : culled passes exported a with
  | false => rfl
  | true =>
    exfalso
    unfold culled at hcull
    have hdead := (Bool.and_eq_true _ _).mp hcull |>.1
    unfold outputsDead at hdead
    have hval := List.all_eq_true.mp hdead r hw
    rw [hlater] at hval
    simp at hval

/-- C1: for every valid frame declaration, the compiled execution order is a
topological sort consistent with declared read-after-write dependencies: for
every resource r, if pass a writes r and pass b reads r and b is declared
after a, then a is retained and precedes b in the compiled order. -/
theorem compiled_order_respects_read_after_write
    (passes : List RGPassDecl) (exported : List Nat) (a b r : Nat)
    (hab : a < b) (hb : b < passes.length)
    (hw : r ∈ (passes.getD a defaultPass).writes)
    (hr : r ∈ (passes.getD b defaultPass).reads) :
    a ∈ compiledOrder passes exported ∧
    (b ∈ compiledOrder passes exported →
      (compiledOrder passes exported).indexOf a <
      (compiledOrder passes exported).indexOf b) := by
  have ha : a ∈ compiledOrder passes exported := by
    rw [mem_compiledOrder]
    exact ⟨Nat.lt_trans hab hb, writer_not_culled hab hb hw hr⟩
  refine ⟨ha, fun hbmem => ?_⟩
  exact indexOf_lt_of_pairwise_lt (compiledOrder_pairwise passes exported) ha hbmem hab

/-- C1 witness: a two-pass frame where pass 0 writes resource 7 and pass 1
reads it; pass 0 precedes pass 1 in the compiled order. -/
theorem compiled_order_respects_read_after_write_witness :
    0 ∈ compiledOrder
        [{ name := "A", reads := [], writes := [7], forceNoCull := false },
         { name := "B", reads := [7], writes := [9], forceNoCull := false }] [9] ∧
    (1 ∈ compiledOrder
        [{ name := "A", reads := [], writes := [7], forceNoCull := false },
         { name := "B", reads := [7], writes := [9], forceNoCull := false }] [9] →
      (compiledOrder
        [{ name := "A", reads := [], writes := [7], forceNoCull := false },
         { name := "B", reads := [7], writes := [9], forceNoCull := false }] [9]).indexOf 0 <
      (compiledOrder
        [{ name := "A", reads := [], writes := [7], forceNoCull := false },
         { name := "B", reads := [7], writes := [9], forceNoCull := false }] [9]).indexOf 1) :=
  compiled_order_respects_read_after_write
    [{ name := "A", reads := [], writes := [7], forceNoCull := false },
     { name := "B", reads := [7], writes := [9], forceNoCull := false }] [9]
    0 1 7 (by decide) (by decide) (by decide) (by decide)

theorem readByLaterPass_eq_false {passes : List RGPassDecl} {i r : Nat}
    (hnr : ∀ j, j < passes.length → j ≠ i → r ∉ (passes.getD j defaultPass).reads) :
    readByLaterPass passes i r = false := by
  unfold readByLaterPass
  rw [List.any_eq_false]
  intro j hj
  rw [List.mem_range] at hj
  simp only [Bool.and_eq_true, decide_eq_true_iff, not_and]
  intro hij
  exact hnr j hj (by omega)

theorem culled_of_unread_output {passes : List RGPassDecl} {exported : List Nat} {i r : Nat}
    (hw : (passes.getD i defaultPass).writes = [r])
    (hnr : ∀ j, j < passes.length → j ≠ i → r ∉ (passes.getD j defaultPass).reads)
    (hne : r ∉ exported)
    (hflag : (passes.getD i defaultPass).forceNoCull = false) :
    culled passes exported i = true := by
  unfold culled outputsDead
  rw [hw, hflag]
  simp only [List.all_cons, List.all_nil, Bool.and_true, Bool.not_false]
  rw [readByLaterPass_eq_false hnr]
  rw [decide_eq_false_iff_not.mpr hne]
  rfl

/-- C2: a pass whose only output is never read by any other pass and is not
exported, and which lacks the force-keep flag, does not appear in the
compiled order and none of its callbacks run; setting the force-keep flag on
that same pass makes it appear in the compiled order. -/
theorem cull_correctness
    (passes : List RGPassDecl) (exported : List Nat) (i r : Nat)
    (hi : i < passes.length)
    (hw : (passes.getD i defaultPass).writes = [r])
    (hnr : ∀ j, j < passes.length → j ≠ i → r ∉ (passes.getD j defaultPass).reads)
    (hne : r ∉ exported)
    (hflag : (passes.getD i defaultPass).forceNoCull = false) :
    i ∉ compiledOrder passes exported ∧
    i ∉ callbackInvocations passes exported ∧
    i ∈ compiledOrder (setForceNoCull passes i) exported := by
  have hcull : culled passes exported i = true := culled_of_unread_output hw hnr hne hflag
  have hnotmem : i ∉ compiledOrder passes exported := by
    intro hmem
    rw [mem_compiledOrder] at hmem
    rw [hcull] at hmem
    exact absurd hmem.2 (by simp)
  refine ⟨hnotmem, hnotmem, ?_⟩
  have hset : (setForceNoCull passes i).getD i defaultPass =
      { passes.getD i defaultPass with forceNoCull := true } := by
    unfold setForceNoCull
    rw [List.getD_eq_getElem?_getD, List.getElem?_set_self]
    · rfl
    · exact hi
  rw [mem_compiledOrder]
  constructor
  · unfold setForceNoCull
    rw [List.length_set]
    exact hi
  · unfold culled
    rw [hset]
    simp

/-- C2 witness: a single pass writing resource 5 that nobody reads: it is
culled, and the same frame with the force-keep flag set retains it. -/
theorem cull_correctness_witness :
    0 ∉ compiledOrder [{ name := "P", reads := [], writes := [5], forceNoCull := false }] [] ∧
    0 ∉ callbackInvocations [{ name := "P", reads := [], writes := [5], forceNoCull := false }] [] ∧
    0 ∈ compiledOrder
        (setForceNoCull [{ name := "P", reads := [], writes := [5], forceNoCull := false }] 0) [] :=
  cull_correctness [{ name := "P", reads := [], writes := [5], forceNoCull := false }] [] 0 5
    (by decide) (by decide)
    (by intro j hj hne; simp only [List.length_singleton] at hj; exfalso; omega)
    (by decide) (by decide)

/-- C3: declaring the same logical resource name twice in the same frame
without the import flag is a construction-time fatal error, and the first
registration is the only one the registry resolves for that name. -/
theorem redeclaration_fails
    (r0 : List RGResourceEntry) (n d1 d2 : Nat)
    (h0 : ∀ e ∈ r0, e.resName ≠ n) :
    declareResource r0 n d1 false =
      Except.ok (r0 ++ [{ resName := n, desc := d1, imported := false }]) ∧
    declareResource (r0 ++ [{ resName := n, desc := d1, imported := false }]) n d2 false =
      Except.error "resource name already declared this frame" ∧
    lookupResource (r0 ++ [{ resName := n, desc := d1, imported := false }]) n =
      some { resName := n, desc := d1, imported := false } := by
  have hany : r0.any (fun e => e.resName == n) = false := by
    rw [List.any_eq_false]
    intro e he
    simpa using h0 e he
  have hfind : r0.find? (fun e => e.resName == n) = none := by
    rw [List.find?_eq_none]
    intro e he
    simpa using h0 e he
  refine ⟨?_, ?_, ?_⟩
  · unfold declareResource
    rw [hany]
    rfl
  · unfold declareResource
    have : (r0 ++ [({ resName := n, desc := d1, imported := false } : RGResourceEntry)]).any
        (fun e => e.resName == n) = true := by
      rw [List.any_eq_true]
      exact ⟨({ resName := n, desc := d1, imported := false } : RGResourceEntry),
        List.mem_append_right _ (List.mem_singleton.mpr rfl), by simp⟩
    rw [this]
    rfl
  · unfold lookupResource
    rw [List.find?_append, hfind]
    simp

/-- C3 witness: with an empty registry, resource name 3 declared twice
without the import flag fails on the second declaration and resolves to the
first registration. -/
theorem redeclaration_fails_witness :
    declareResource [] 3 10 false =
      Except.ok [{ resName := 3, desc := 10, imported := false }] ∧
    declareResource [{ resName := 3, desc := 10, imported := false }] 3 11 false =
      Except.error "resource name already declared this frame" ∧
    lookupResource [{ resName := 3, desc := 10, imported := false }] 3 =
      some { resName := 3, desc := 10, imported := false } :=
  redeclaration_fails [] 3 10 11 (by intro e he; cases he)

/-- C8: GetChecked fails fatally exactly when no value of the requested type
tag is stored in the blackboard this frame, and a value stored this frame is
returned by GetChecked. -/
theorem blackboard_getChecked_spec (bb : List (Nat × Nat)) (t v : Nat) :
    ((∃ msg, getChecked bb t = Except.error msg) ↔ ∀ w, (t, w) ∉ bb) ∧
    getChecked (blackboardAdd bb t v) t = Except.ok v := by
  constructor
  · constructor
    · rintro ⟨msg, hmsg⟩ w hw
      unfold getChecked at hmsg
      cases hfind : bb.find? (fun e => e.1 == t) with
      | some e => rw [hfind] at hmsg; cases hmsg
      | none =>
        have := List.find?_eq_none.mp hfind (t, w) hw
        simp at this
    · intro hall
      unfold getChecked
      cases hfind : bb.find? (fun e => e.1 == t) with
      | some e =>
        exfalso
        have hmem := List.mem_of_find?_eq_some hfind
        have hpred := List.find?_some hfind
        have he : e.1 = t := by simpa using hpred
        exact hall e.2 (by rw [← he]; exact hmem)
      | none => exact ⟨"blackboard: type was never stored this frame", rfl⟩
  · unfold getChecked blackboardAdd
    simp

/-- C8 witness: tag 2 never stored fails fatally; tag 2 stored with value 9
is returned. -/
theorem blackboard_getChecked_spec_witness :
    ((∃ msg, getChecked [(1, 5)] 2 = Except.error msg) ↔ ∀ w, (2, w) ∉ [(1, 5)]) ∧
    getChecked (blackboardAdd [(1, 5)] 2 9) 2 = Except.ok 9 :=
  blackboard_getChecked_spec [(1, 5)] 2 9

theorem declarePhase_error_of_unresolved_read
    {frame : List PassDeclare} {n : Nat} (declared : List Nat) (p : PassDeclare)
    (hp : p ∈ frame) (hn : n ∈ p.readsRes) (hnd : n ∉ declared)
    (hq : ∀ q ∈ frame, n ∉ q.declaresRes) :
    ∃ msg, declarePhase declared frame = Except.error msg := by
  induction frame generalizing declared with
  | nil => cases hp
  | cons q rest ih =>
    by_cases hc : q.readsRes.all (fun m => decide (m ∈ declared ++ q.declaresRes)) = true
    · have hstep : declarePhase declared (q :: rest) =
          declarePhase (declared ++ q.declaresRes) rest := by
        simp only [declarePhase]
        rw [if_pos hc]
      rw [hstep]
      have hnd' : n ∉ declared ++ q.declaresRes := by
        rw [List.mem_append]
        rintro (h | h)
        · exact hnd h
        · exact hq q (List.mem_cons_self q rest) h
      rcases List.mem_cons.mp hp with hp1 | hp'
      · exfalso
        subst hp1
        have := List.all_eq_true.mp hc n hn
        rw [decide_eq_true_iff] at this
        exact hnd' this
      · exact ih (declared ++ q.declaresRes) hp' hnd'
          (fun q' hq' => hq q' (List.mem_cons_of_mem q hq'))
    · refine ⟨"read of undeclared resource in pass " ++ q.passName, ?_⟩
      unfold declarePhase
      rw [if_neg hc]

/-- C4: a pass reading a resource name that no pass of the frame ever
declares makes the declare phase fail, and no GPU command is recorded for
the invalid frame. -/
theorem undeclared_read_fails_before_gpu_work
    (frame : List PassDeclare) (p : PassDeclare) (n : Nat)
    (hp : p ∈ frame) (hn : n ∈ p.readsRes)
    (hq : ∀ q ∈ frame, n ∉ q.declaresRes) :
    (∃ msg, declarePhase [] frame = Except.error msg) ∧
    recordedGpuCommands frame = [] := by
  have herr := declarePhase_error_of_unresolved_read [] p hp hn (by simp) hq
  refine ⟨herr, ?_⟩
  unfold recordedGpuCommands
  rcases herr with ⟨msg, hmsg⟩
  rw [hmsg]

/-- C4 witness: a frame whose only pass reads resource 4 that nobody
declares fails construction and records no GPU commands. -/
theorem undeclared_read_fails_before_gpu_work_witness :
    (∃ msg, declarePhase []
      [{ passName := "ToneMap", declaresRes := [], readsRes := [4] }] = Except.error msg) ∧
    recordedGpuCommands
      [{ passName := "ToneMap", declaresRes := [], readsRes := [4] }] = [] :=
  undeclared_read_fails_before_gpu_work
    [{ passName := "ToneMap", declaresRes := [], readsRes := [4] }]
    { passName := "ToneMap", declaresRes := [], readsRes := [4] } 4
    (by simp) (by simp)
    (by intro q hq; simp at hq; rw [hq]; simp)

theorem find?_access_of_nodup {accesses : List ResourceAccess} {r : Nat} {s : GfxState}
    (hnd : nodupAccessKeys accesses)
    (hmem : ({ res := r, reqState := s } : ResourceAccess) ∈ accesses) :
    accesses.find? (fun a => a.res == r) = some { res := r, reqState := s } := by
  induction accesses with
  | nil => cases hmem
  | cons a rest ih =>
    unfold nodupAccessKeys at hnd
    rw [List.map_cons, List.nodup_cons] at hnd
    by_cases har : a.res = r
    · have ha : a = { res := r, reqState := s } := by
        rcases List.mem_cons.mp hmem with h1 | h2
        · exact h1.symm
        · exact absurd (List.mem_map.mpr ⟨_, h2, rfl⟩) (har ▸ hnd.1)
      rw [List.find?_cons_of_pos _ (by simp [har]), ha]
    · have h2 : ({ res := r, reqState := s } : ResourceAccess) ∈ rest := by
        rcases List.mem_cons.mp hmem with h1 | h2
        · exact absurd (congrArg ResourceAccess.res h1.symm) har
        · exact h2
      rw [List.find?_cons_of_neg _ (by simp [har])]
      exact ih hnd.2 h2

theorem trackedAfter_eq_of_mem {tracked : Nat → GfxState}
    {accesses : List ResourceAccess} {r : Nat} {s : GfxState}
    (hnd : nodupAccessKeys accesses)
    (hmem : ({ res := r, reqState := s } : ResourceAccess) ∈ accesses) :
    trackedAfter tracked accesses r = s := by
  unfold trackedAfter
  rw [find?_access_of_nodup hnd hmem]

theorem mem_passBarriers {tracked : Nat → GfxState} {accesses : List ResourceAccess}
    {b : Barrier} (hb : b ∈ passBarriers tracked accesses) :
    ∃ a ∈ accesses, b.res = a.res := by
  unfold passBarriers at hb
  rw [List.mem_filterMap] at hb
  obtain ⟨a, ha, hfa⟩ := hb
  by_cases hc : tracked a.res = a.reqState
  · rw [if_pos hc] at hfa
    cases hfa
  · rw [if_neg hc] at hfa
    injection hfa with hfa
    exact ⟨a, ha, by rw [← hfa]⟩

theorem barriersFor_of_key_not_mem {tracked : Nat → GfxState}
    {accesses : List ResourceAccess} {r : Nat}
    (h : ∀ a ∈ accesses, a.res ≠ r) :
    barriersFor r (passBarriers tracked accesses) = [] := by
  unfold barriersFor
  rw [List.filter_eq_nil_iff]
  intro b hb
  obtain ⟨a, ha, hba⟩ := mem_passBarriers hb
  simp only [beq_iff_eq]
  rw [hba]
  exact h a ha

theorem passBarriers_cons (tracked : Nat → GfxState) (a : ResourceAccess)
    (rest : List ResourceAccess) :
    passBarriers tracked (a :: rest) =
      if tracked a.res = a.reqState then passBarriers tracked rest
      else { res := a.res, stateBefore := tracked a.res, stateAfter := a.reqState } ::
        passBarriers tracked rest := by
  unfold passBarriers
  rw [List.filterMap_cons]
  by_cases hc : tracked a.res = a.reqState
  · rw [if_pos hc, if_pos hc]
  · rw [if_neg hc, if_neg hc]

theorem barriersFor_cons (r : Nat) (b : Barrier) (l : List Barrier) :
    barriersFor r (b :: l) =
      if b.res = r then b :: barriersFor r l else barriersFor r l := by
  unfold barriersFor
  rw [List.filter_cons]
  by_cases hc : b.res = r
  · rw [if_pos (by simp [hc]), if_pos hc]
  · rw [if_neg (by simp [hc]), if_neg hc]

theorem barriersFor_passBarriers {tracked : Nat → GfxState}
    {accesses : List ResourceAccess} {r : Nat} {s : GfxState}
    (hnd : nodupAccessKeys accesses)
    (hmem : ({ res := r, reqState := s } : ResourceAccess) ∈ accesses) :
    barriersFor r (passBarriers tracked accesses) =
      if tracked r = s then []
      else [{ res := r, stateBefore := tracked r, stateAfter := s }] := by
  induction accesses with
  | nil => cases hmem
  | cons a rest ih =>
    unfold nodupAccessKeys at hnd
    rw [List.map_cons, List.nodup_cons] at hnd
    by_cases har : a.res = r
    · have ha : a = { res := r, reqState := s } := by
        rcases List.mem_cons.mp hmem with h1 | h2
        · exact h1.symm
        · exact absurd (List.mem_map.mpr ⟨_, h2, rfl⟩) (har ▸ hnd.1)
      have hrest : barriersFor r (passBarriers tracked rest) = [] :=
        barriersFor_of_key_not_mem (fun a' ha' harr =>
          (har ▸ hnd.1) (harr ▸ List.mem_map.mpr ⟨a', ha', rfl⟩))
      subst ha
      rw [passBarriers_cons]
      dsimp only
      by_cases hc : tracked r = s
      · rw [if_pos hc, hrest, if_pos hc]
      · rw [if_neg hc, barriersFor_cons]
        dsimp only
        rw [if_pos rfl, hrest, if_neg hc]
    · have h2 : ({ res := r, reqState := s } : ResourceAccess) ∈ rest := by
        rcases List.mem_cons.mp hmem with h1 | h2
        · exact absurd (congrArg ResourceAccess.res h1.symm) har
        · exact h2
      have htail := ih hnd.2 h2
      rw [passBarriers_cons]
      by_cases hc : tracked a.res = a.reqState
      · rw [if_pos hc]
        exact htail
      · rw [if_neg hc, barriersFor_cons]
        dsimp only
        rw [if_neg har]
        exact htail

theorem barrierBatches_append (tracked : Nat → GfxState) (xs ys : List RetainedPass) :
    barrierBatches tracked (xs ++ ys) =
      barrierBatches tracked xs ++ barrierBatches (trackedAfterPasses tracked xs) ys := by
  induction xs generalizing tracked with
  | nil => rfl
  | cons p rest ih =>
    simp only [List.cons_append, barrierBatches, trackedAfterPasses]
    exact congrArg (List.cons _) (ih _)

theorem barrierBatches_length (tracked : Nat → GfxState) (ps : List RetainedPass) :
    (barrierBatches tracked ps).length = ps.length := by
  induction ps generalizing tracked with
  | nil => rfl
  | cons p rest ih => simp [barrierBatches, ih]

/-- C5: for any two consecutive retained passes both accessing resource r,
the batch flushed before the second pass contains zero barriers for r when
the required state is unchanged and exactly one transition barrier for r
when it changed; barriers are batched one flush per pass boundary (one
batch per retained pass). -/
theorem barrier_minimality
    (t0 : Nat → GfxState) (pre : List RetainedPass) (p q : RetainedPass)
    (rest : List RetainedPass) (r : Nat) (s1 s2 : GfxState)
    (hp : ({ res := r, reqState := s1 } : ResourceAccess) ∈ p.accesses)
    (hpn : nodupAccessKeys p.accesses)
    (hq : ({ res := r, reqState := s2 } : ResourceAccess) ∈ q.accesses)
    (hqn : nodupAccessKeys q.accesses) :
    (barrierBatches t0 (pre ++ p :: q :: rest)).length = (pre ++ p :: q :: rest).length ∧
    barriersFor r ((barrierBatches t0 (pre ++ p :: q :: rest)).getD (pre.length + 1) []) =
      (if s1 = s2 then []
       else [{ res := r, stateBefore := s1, stateAfter := s2 }]) := by
  refine ⟨barrierBatches_length _ _, ?_⟩
  rw [barrierBatches_append]
  have hlen : (barrierBatches t0 pre).length = pre.length := barrierBatches_length _ _
  rw [List.getD_append_right _ _ _ _ (by rw [hlen]; omega), hlen]
  have hidx : pre.length + 1 - pre.length = 1 := by omega
  rw [hidx]
  show barriersFor r
      ((passBarriers (trackedAfterPasses t0 pre) p.accesses ::
        passBarriers (trackedAfter (trackedAfterPasses t0 pre) p.accesses) q.accesses ::
        barrierBatches
          (trackedAfter (trackedAfter (trackedAfterPasses t0 pre) p.accesses) q.accesses)
          rest).getD 1 []) = _
  rw [List.getD_cons_succ, List.getD_cons_zero]
  rw [barriersFor_passBarriers hqn hq]
  rw [trackedAfter_eq_of_mem hpn hp]

/-- C5 witness: pass A leaves resource 7 in render-target state, pass B
reads it in shader-read state: exactly one transition barrier for 7 in the
batch before B, and one batch per retained pass. -/
theorem barrier_minimality_witness :
    (barrierBatches (fun _ => GfxState.common)
      ([] ++ ({ passName := "A",
                accesses := [{ res := 7, reqState := GfxState.renderTarget }] } : RetainedPass) ::
        ({ passName := "B",
           accesses := [{ res := 7, reqState := GfxState.shaderRead }] } : RetainedPass) :: [])).length =
      ([] ++ ({ passName := "A",
                accesses := [{ res := 7, reqState := GfxState.renderTarget }] } : RetainedPass) ::
        ({ passName := "B",
           accesses := [{ res := 7, reqState := GfxState.shaderRead }] } : RetainedPass) :: []).length ∧
    barriersFor 7 ((barrierBatches (fun _ => GfxState.common)
      ([] ++ ({ passName := "A",
                accesses := [{ res := 7, reqState := GfxState.renderTarget }] } : RetainedPass) ::
        ({ passName := "B",
           accesses := [{ res := 7, reqState := GfxState.shaderRead }] } : RetainedPass) :: [])).getD
        (List.length ([] : List RetainedPass) + 1) []) =
      (if GfxState.renderTarget = GfxState.shaderRead then []
       else [{ res := 7, stateBefore := GfxState.renderTarget,
               stateAfter := GfxState.shaderRead }]) :=
  barrier_minimality (fun _ => GfxState.common) []
    { passName := "A", accesses := [{ res := 7, reqState := GfxState.renderTarget }] }
    { passName := "B", accesses := [{ res := 7, reqState := GfxState.shaderRead }] }
    [] 7 GfxState.renderTarget GfxState.shaderRead
    (by simp) (by unfold nodupAccessKeys; simp) (by simp) (by unfold nodupAccessKeys; simp)

theorem assignResources_cons_imported {r : RGLogicalResource} (pool : PoolState)
    (rest : List RGLogicalResource) (h : r.imported = true) :
    assignResources pool (r :: rest) =
      ((r, r.externalBacking) :: (assignResources pool rest).1,
       (assignResources pool rest).2.1, (assignResources pool rest).2.2) := by
  simp only [assignResources]
  rw [if_pos h]

theorem assignResources_cons_pooled {r : RGLogicalResource} (pool : PoolState)
    (rest : List RGLogicalResource) (h : r.imported = false) :
    assignResources pool (r :: rest) =
      ((r, (poolAcquire pool r.desc).1) ::
         (assignResources (poolAcquire pool r.desc).2 rest).1,
       (assignResources (poolAcquire pool r.desc).2 rest).2.1,
       PoolOp.acquire r.resName (poolAcquire pool r.desc).1 ::
         (assignResources (poolAcquire pool r.desc).2 rest).2.2) := by
  simp only [assignResources]
  rw [if_neg (by simp [h])]

theorem frameEndRelease_cons_imported {r : RGLogicalResource} (pool : PoolState)
    (phys : Nat) (rest : List (RGLogicalResource × Nat)) (h : r.imported = true) :
    frameEndRelease pool ((r, phys) :: rest) = frameEndRelease pool rest := by
  simp only [frameEndRelease]
  rw [if_pos h]

theorem frameEndRelease_cons_pooled {r : RGLogicalResource} (pool : PoolState)
    (phys : Nat) (rest : List (RGLogicalResource × Nat)) (h : r.imported = false) :
    frameEndRelease pool ((r, phys) :: rest) =
      ((frameEndRelease
          { freeList := pool.freeList ++ [(phys, r.desc)], nextId := pool.nextId } rest).1,
       PoolOp.release r.resName phys ::
         (frameEndRelease
           { freeList := pool.freeList ++ [(phys, r.desc)], nextId := pool.nextId } rest).2) := by
  simp only [frameEndRelease]
  rw [if_neg (by simp [h])]

theorem assign_binding_of_imported (x : RGLogicalResource) (himp : x.imported = true) :
    ∀ (resources : List RGLogicalResource) (pool : PoolState), x ∈ resources →
      (x, x.externalBacking) ∈ (assignResources pool resources).1 := by
  intro resources
  induction resources with
  | nil => intro pool hx; cases hx
  | cons r rest ih =>
    intro pool hx
    rcases List.mem_cons.mp hx with h1 | h2
    · subst h1
      rw [assignResources_cons_imported pool rest himp]
      exact List.mem_cons_self _ _
    · by_cases hr : r.imported = true
      · rw [assignResources_cons_imported pool rest hr]
        exact List.mem_cons_of_mem _ (ih pool h2)
      · rw [Bool.not_eq_true] at hr
        rw [assignResources_cons_pooled pool rest hr]
        exact List.mem_cons_of_mem _ (ih _ h2)

theorem assign_ops_from_pooled :
    ∀ (resources : List RGLogicalResource) (pool : PoolState) (op : PoolOp),
      op ∈ (assignResources pool resources).2.2 →
      ∃ y ∈ resources, y.imported = false ∧ PoolOp.forName op = y.resName := by
  intro resources
  induction resources with
  | nil => intro pool op hop; cases hop
  | cons r rest ih =>
    intro pool op hop
    by_cases hr : r.imported = true
    · rw [assignResources_cons_imported pool rest hr] at hop
      obtain ⟨y, hy, hyi, hyn⟩ := ih pool op hop
      exact ⟨y, List.mem_cons_of_mem _ hy, hyi, hyn⟩
    · rw [Bool.not_eq_true] at hr
      rw [assignResources_cons_pooled pool rest hr] at hop
      rcases List.mem_cons.mp hop with h1 | h2
      · subst h1
        exact ⟨r, List.mem_cons_self _ _, hr, rfl⟩
      · obtain ⟨y, hy, hyi, hyn⟩ := ih _ op h2
        exact ⟨y, List.mem_cons_of_mem _ hy, hyi, hyn⟩

theorem release_ops_from_pooled :
    ∀ (bs : List (RGLogicalResource × Nat)) (pool : PoolState) (op : PoolOp),
      op ∈ (frameEndRelease pool bs).2 →
      ∃ y phys, (y, phys) ∈ bs ∧ y.imported = false ∧ PoolOp.forName op = y.resName := by
  intro bs
  induction bs with
  | nil => intro pool op hop; cases hop
  | cons e rest ih =>
    intro pool op hop
    obtain ⟨r, phys⟩ := e
    by_cases hr : r.imported = true
    · rw [frameEndRelease_cons_imported pool phys rest hr] at hop
      obtain ⟨y, ph, hy, hyi, hyn⟩ := ih pool op hop
      exact ⟨y, ph, List.mem_cons_of_mem _ hy, hyi, hyn⟩
    · rw [Bool.not_eq_true] at hr
      rw [frameEndRelease_cons_pooled pool phys rest hr] at hop
      rcases List.mem_cons.mp hop with h1 | h2
      · subst h1
        exact ⟨r, phys, List.mem_cons_self _ _, hr, rfl⟩
      · obtain ⟨y, ph, hy, hyi, hyn⟩ := ih _ op h2
        exact ⟨y, ph, List.mem_cons_of_mem _ hy, hyi, hyn⟩

theorem assign_fst :
    ∀ (resources : List RGLogicalResource) (pool : PoolState),
      ((assignResources pool resources).1).map Prod.fst = resources := by
  intro resources
  induction resources with
  | nil => intro pool; rfl
  | cons r rest ih =>
    intro pool
    by_cases hr : r.imported = true
    · rw [assignResources_cons_imported pool rest hr, List.map_cons, ih pool]
    · rw [Bool.not_eq_true] at hr
      rw [assignResources_cons_pooled pool rest hr, List.map_cons, ih _]

theorem assign_all_imported :
    ∀ (resources : List RGLogicalResource) (pool : PoolState),
      (∀ y ∈ resources, y.imported = true) →
      assignResources pool resources =
        (resources.map (fun r => (r, r.externalBacking)), pool, []) := by
  intro resources
  induction resources with
  | nil => intro pool _; rfl
  | cons r rest ih =>
    intro pool hall
    rw [assignResources_cons_imported pool rest (hall r (List.mem_cons_self r rest))]
    rw [ih pool (fun y hy => hall y (List.mem_cons_of_mem r hy))]
    rfl

theorem release_all_imported :
    ∀ (bs : List (RGLogicalResource × Nat)) (pool : PoolState),
      (∀ e ∈ bs, e.1.imported = true) →
      frameEndRelease pool bs = (pool, []) := by
  intro bs
  induction bs with
  | nil => intro pool _; rfl
  | cons e rest ih =>
    intro pool hall
    obtain ⟨r, phys⟩ := e
    rw [frameEndRelease_cons_imported pool phys rest (hall (r, phys) (List.mem_cons_self _ rest))]
    exact ih pool (fun y hy => hall y (List.mem_cons_of_mem _ hy))

/-- C7: a logical resource bound via ImportTexture never receives pool
backing and is never released by the frame graph: it is bound to its
external resource, no pool operation of the whole frame names it, and a
frame whose resources are all imported leaves the pool (free list and
allocation counter) untouched. -/
theorem import_bypasses_pool
    (pool : PoolState) (resources : List RGLogicalResource) (x : RGLogicalResource)
    (hx : x ∈ resources) (himp : x.imported = true)
    (huniq : ∀ y ∈ resources, y.resName = x.resName → y = x) :
    (x, x.externalBacking) ∈ (assignResources pool resources).1 ∧
    (∀ op ∈ (runFramePool pool resources).2, PoolOp.forName op ≠ x.resName) ∧
    ((∀ y ∈ resources, y.imported = true) → runFramePool pool resources = (pool, [])) := by
  refine ⟨assign_binding_of_imported x himp resources pool hx, ?_, ?_⟩
  · intro op hop
    unfold runFramePool at hop
    rcases List.mem_append.mp hop with h1 | h2
    · obtain ⟨y, hy, hyi, hyn⟩ := assign_ops_from_pooled resources pool op h1
      intro hcon
      have hyx : y = x := huniq y hy (by rw [← hyn, hcon])
      rw [hyx, himp] at hyi
      cases hyi
    · obtain ⟨y, phys, hyb, hyi, hyn⟩ := release_ops_from_pooled _ _ op h2
      have hymem : y ∈ resources := by
        rw [← assign_fst resources pool]
        exact List.mem_map.mpr ⟨(y, phys), hyb, rfl⟩
      intro hcon
      have hyx : y = x := huniq y hymem (by rw [← hyn, hcon])
      rw [hyx, himp] at hyi
      cases hyi
  · intro hall
    unfold runFramePool
    rw [assign_all_imported resources pool hall]
    dsimp only
    rw [release_all_imported (resources.map (fun r => (r, r.externalBacking))) pool
      (by
        intro e he
        obtain ⟨r, hr, hre⟩ := List.mem_map.mp he
        rw [← hre]
        exact hall r hr)]
    rfl

/-- C7 witness: a frame whose single resource (name 9) imports external
backing 42: it is bound to 42, no pool operation names it, and the pool is
unchanged. -/
theorem import_bypasses_pool_witness :
    (({ resName := 9, desc := 5, imported := true, externalBacking := 42 } : RGLogicalResource), 42) ∈
      (assignResources { freeList := [(0, 5)], nextId := 1 }
        [{ resName := 9, desc := 5, imported := true, externalBacking := 42 }]).1 ∧
    (∀ op ∈ (runFramePool { freeList := [(0, 5)], nextId := 1 }
        [{ resName := 9, desc := 5, imported := true, externalBacking := 42 }]).2,
      PoolOp.forName op ≠ 9) ∧
    ((∀ y ∈ ([{ resName := 9, desc := 5, imported := true, externalBacking := 42 }] :
        List RGLogicalResource), y.imported = true) →
      runFramePool { freeList := [(0, 5)], nextId := 1 }
        [{ resName := 9, desc := 5, imported := true, externalBacking := 42 }] =
        ({ freeList := [(0, 5)], nextId := 1 }, [])) :=
  import_bypasses_pool { freeList := [(0, 5)], nextId := 1 }
    [{ resName := 9, desc := 5, imported := true, externalBacking := 42 }]
    { resName := 9, desc := 5, imported := true, externalBacking := 42 }
    (by simp) (by rfl)
    (by intro y hy _; simpa using hy)

/-- C6: compilation is deterministic: two frame-graph instances built from
identical pass declarations produce identical compiled orders and identical
barrier placement, independent of the instance pool state; the plan is
derived from the declarations alone. -/
theorem compile_deterministic
    (passes : List RGPassDecl) (exported : List Nat)
    (resources : List RGLogicalResource) (pool1 pool2 : PoolState) :
    (compileFrame passes exported resources pool1).1.order =
      (compileFrame passes exported resources pool2).1.order ∧
    (compileFrame passes exported resources pool1).1.batches =
      (compileFrame passes exported resources pool2).1.batches :=
  ⟨rfl, rfl⟩

/-- C9: in a frame where the Exposure texture is not declared, the
tone-map pass invalidates its exposure handle and its execution callback
binds the global 1x1 white texture SRV in the exposure descriptor slot; in
a frame where Exposure is declared it binds that texture's SRV, so the
pass never resolves an invalid graph handle. -/
theorem tonemap_exposure_binding (b : BuilderState) (hdrSrc : String) :
    (("Exposure" ∉ b.declaredTextures) →
       toneMapExposureBinding (toneMapDeclare b hdrSrc) =
         ExposureSrvSource.globalWhiteTexture) ∧
    (("Exposure" ∈ b.declaredTextures) →
       toneMapExposureBinding (toneMapDeclare b hdrSrc) =
         ExposureSrvSource.graphTexture ("Exposure")) := by
  constructor
  · intro hnot
    have hdecl : isTextureDeclared b ("Exposure") = false := by
      unfold isTextureDeclared
      simpa using hnot
    have hdata : toneMapDeclare b hdrSrc =
        { hdrSrv := readTexture b hdrSrc, exposure := invalidTextureId } := by
      unfold toneMapDeclare
      rw [if_neg (by simp [hdecl])]
    rw [hdata]
    rfl
  · intro hmem
    have hdecl : isTextureDeclared b ("Exposure") = true := by
      unfold isTextureDeclared
      simpa using hmem
    have hdata : toneMapDeclare b hdrSrc =
        { hdrSrv := readTexture b hdrSrc, exposure := readTexture b ("Exposure") } := by
      unfold toneMapDeclare
      rw [if_pos (by simp [hdecl])]
    rw [hdata]
    rfl

/-- C9 witness: with only the hdr source declared the exposure slot gets
the white texture; with Exposure also declared it gets the Exposure SRV. -/
theorem tonemap_exposure_binding_witness :
    toneMapExposureBinding
        (toneMapDeclare { declaredTextures := ["HDR_RenderTarget"] } ("HDR_RenderTarget")) =
      ExposureSrvSource.globalWhiteTexture ∧
    toneMapExposureBinding
        (toneMapDeclare { declaredTextures := ["HDR_RenderTarget", "Exposure"] }
          ("HDR_RenderTarget")) =
      ExposureSrvSource.graphTexture ("Exposure") :=
  ⟨(tonemap_exposure_binding { declaredTextures := ["HDR_RenderTarget"] }
      ("HDR_RenderTarget")).1 (by simp),
   (tonemap_exposure_binding { declaredTextures := ["HDR_RenderTarget", "Exposure"] }
      ("HDR_RenderTarget")).2 (by simp)⟩

/-- C10: within one shader compilation, LoadSource returns the file
contents the first time a normalized include path is requested, a blank
placeholder blob on every later request for the same path, and E_FAIL with
a null output blob exactly when the file does not exist or cannot be
loaded; the include_files invariant is preserved. -/
theorem loadSource_spec (fs : IncludeFileSystem) (normalize : String → String)
    (st : List String) (f : String) (hGood : goodIncludeState fs st) :
    (∀ c, normalize f ∉ st → fs.fileExists (normalize f) = true →
        fs.loadFile (normalize f) = some c →
        loadSource fs normalize st f =
          (HResultCode.sOk, some c, st ++ [normalize f])) ∧
    (normalize f ∈ st →
        loadSource fs normalize st f = (HResultCode.sOk, some blankBlob, st)) ∧
    ((loadSource fs normalize st f).1 = HResultCode.eFail ↔
        (fs.fileExists (normalize f) = false ∨ fs.loadFile (normalize f) = none)) ∧
    ((loadSource fs normalize st f).2.1 = none ↔
        (loadSource fs normalize st f).1 = HResultCode.eFail) ∧
    goodIncludeState fs (loadSource fs normalize st f).2.2 := by
  by_cases hex : fs.fileExists (normalize f) = false
  · have hls : loadSource fs normalize st f = (HResultCode.eFail, none, st) := by
      unfold loadSource
      rw [if_pos hex]
    refine ⟨?_, ?_, ?_, ?_, ?_⟩
    · intro c h1 h2 h3
      rw [h2] at hex
      cases hex
    · intro hmem
      obtain ⟨hex2, c0, hload⟩ := hGood _ hmem
      rw [hex2] at hex
      cases hex
    · rw [hls]
      simp [hex]
    · rw [hls]
      simp
    · rw [hls]
      exact hGood
  · have hex' : fs.fileExists (normalize f) = true := by
      cases h : fs.fileExists (normalize f) with
      | false => exact absurd h hex
      | true => rfl
    by_cases hmem : normalize f ∈ st
    · obtain ⟨hex2, c0, hload⟩ := hGood _ hmem
      have hls : loadSource fs normalize st f = (HResultCode.sOk, some blankBlob, st) := by
        unfold loadSource
        rw [if_neg hex, if_pos hmem]
      refine ⟨?_, ?_, ?_, ?_, ?_⟩
      · intro c h1 h2 h3
        exact absurd hmem h1
      · intro _
        exact hls
      · rw [hls]
        simp [hex', hload]
      · rw [hls]
        simp
      · rw [hls]
        exact hGood
    · cases hload : fs.loadFile (normalize f) with
      | some c0 =>
        have hls : loadSource fs normalize st f =
            (HResultCode.sOk, some c0, st ++ [normalize f]) := by
          unfold loadSource
          rw [if_neg hex, if_neg hmem, hload]
        refine ⟨?_, ?_, ?_, ?_, ?_⟩
        · intro c h1 h2 h3
          injection h3 with h3
          rw [hls, h3]
        · intro h
          exact absurd h hmem
        · rw [hls]
          simp [hex', hload]
        · rw [hls]
          simp
        · rw [hls]
          intro q hq
          rcases List.mem_append.mp hq with h1 | h2
          · exact hGood q h1
          · rw [List.mem_singleton.mp h2]
            exact ⟨hex', c0, hload⟩
      | none =>
        have hls : loadSource fs normalize st f = (HResultCode.eFail, none, st) := by
          unfold loadSource
          rw [if_neg hex, if_neg hmem, hload]
        refine ⟨?_, ?_, ?_, ?_, ?_⟩
        · intro c h1 h2 h3
          cases h3
        · intro h
          exact absurd h hmem
        · rw [hls]
          simp [hex', hload]
        · rw [hls]
          simp
        · rw [hls]
          exact hGood

/-- C10 witness: with an empty include_files list and a file system holding
one include file, the first request returns the file contents and records
the path. -/
theorem loadSource_spec_witness :
    loadSource
        { fileExists := fun s => decide (s = "Common.hlsli"),
          loadFile := fun s => if s = "Common.hlsli" then some ("float x;") else none }
        id [] ("Common.hlsli") =
      (HResultCode.sOk, some ("float x;"), ["Common.hlsli"]) :=
  (loadSource_spec
      { fileExists := fun s => decide (s = "Common.hlsli"),
        loadFile := fun s => if s = "Common.hlsli" then some ("float x;") else none }
      id [] ("Common.hlsli")
      (by intro p hp; cases hp)).1 ("float x;")
    (by simp) (by simp) (by simp)
